import Mathlib

/-!
Verification of the EEPROM file transport tool (`src/main.rs`).

The tool stores a file into an I2C EEPROM (metadata record at offset 0,
content at offset 32) and reads it back, validating a CRC-16/USB checksum.
We embed the device as a byte array (`List Nat`, entries < 256), the bus
transport operations as an explicit trace of addressed transfers, and the
two command paths (`Sub::Read`, `Sub::Write` in `main`) as pure functions
producing a trace and a result.
-/

namespace VkI2c

/-- `const EEPROM_SIZE: u16 = 8192` — total size of the EEPROM in bytes. -/
def EEPROM_SIZE : Nat := 8192

/-- `const METADATA_OFFSET: u16 = 0`. -/
def METADATA_OFFSET : Nat := 0

/-- `const CONTENT_OFFSET: u16 = 32`. -/
def CONTENT_OFFSET : Nat := 32

/-- `const MAX_CONTENT_SIZE: u16 = EEPROM_SIZE - CONTENT_OFFSET` = 8160. -/
def MAX_CONTENT_SIZE : Nat := EEPROM_SIZE - CONTENT_OFFSET

/-- `std::mem::size_of::<Metadata>()`: the struct is `#[repr(C)]` with fields
`[u8; 28]`, `u16`, `u16`, so its size is 28 + 2 + 2 = 32 bytes. -/
def METADATA_SIZE : Nat := 32

/-- One step of the reflected CRC-16/USB bit loop: polynomial 0x8005
reflected is 0xA001; shift right, xor the polynomial when the low bit is
set.  Embeds the per-bit behaviour of `crc::Crc::<u16>::new(&CRC_16_USB)`. -/
def crcBit (crc : Nat) : Nat :=
  if crc % 2 = 1 then (crc / 2) ^^^ 0xA001 else crc / 2

/-- Process one input byte of CRC-16/USB (refin = true): xor the byte into
the low bits, then run eight bit steps. -/
def crcByte (crc b : Nat) : Nat :=
  crcBit^[8] (crc ^^^ b)

/-- `CRC.checksum(data)` for `CRC_16_USB`: init = 0xFFFF, refin = refout =
true, xorout = 0xFFFF. -/
def crc16usb (data : List Nat) : Nat :=
  (data.foldl crcByte 0xFFFF) ^^^ 0xFFFF

/-- The `Metadata` struct stored at offset 0 of the EEPROM:
`unused: [u8; 28]`, `content_crc: u16`, `content_size: u16`. -/
structure Metadata where
  unused : List Nat
  content_crc : Nat
  content_size : Nat
deriving DecidableEq

/-- `u16::to_le_bytes` — how bincode (default options: fixed-width ints,
little endian) lays out a `u16`. -/
def u16leBytes (v : Nat) : List Nat := [v % 256, v / 256 % 256]

/-- Read a little-endian `u16` from a two-byte list (bincode decode of a
`u16` field). -/
def u16leValue : List Nat → Nat
  | [b0, b1] => b0 + 256 * b1
  | _ => 0

/-- `u16::to_be_bytes` — used for the bus address prefix of each transfer. -/
def u16beBytes (v : Nat) : List Nat := [v / 256 % 256, v % 256]

/-- `bincode::serialize(&metadata)`: bincode writes the `[u8; 28]` array as
28 raw bytes (no length prefix) followed by the two `u16` fields in
little-endian, in declaration order `unused | content_crc | content_size`. -/
def encodeMetadata (md : Metadata) : List Nat :=
  md.unused ++ u16leBytes md.content_crc ++ u16leBytes md.content_size

/-- `bincode::deserialize::<Metadata>(buf)`: needs 28 + 2 + 2 = 32 bytes;
any 32-byte input parses (every bit pattern is a valid fixed-width record). -/
def decodeMetadata (buf : List Nat) : Option Metadata :=
  if buf.length < METADATA_SIZE then none
  else some ⟨buf.take 28, u16leValue ((buf.drop 28).take 2),
             u16leValue ((buf.drop 30).take 2)⟩

/-- A bus transport operation issued to the device.  A `write` models
`device.write(buffer)` where the first two buffer bytes are the big-endian
target offset and the rest is the payload; a `read` models the combined
`transfer(&mut [I2CMessage::write(&offset), I2CMessage::read(buf)])`. -/
inductive Op where
  | write (addr : Nat) (payload : List Nat)
  | read (addr : Nat) (len : Nat)
deriving DecidableEq

/-- Result of running the write path: the device writes issued in order,
and the abort message if the path aborted. -/
structure WriteOutcome where
  ops : List Op
  err : Option String
deriving DecidableEq

deriving instance DecidableEq for Except

/-- Result of running the read path: the transfers issued in order, and
either the delivered content bytes or the abort message. -/
structure ReadOutcome where
  ops : List Op
  result : Except String (List Nat)

/-- The buffer built by the write path: `METADATA_OFFSET.to_be_bytes()`
followed by `bincode::serialize_into(&mut metadata_buffer, &metadata)`. -/
def metadataBuffer (md : Metadata) : List Nat :=
  u16beBytes METADATA_OFFSET ++ encodeMetadata md

/-- The content chunk writes of the write path:
`for (index, chunk) in content_buffer.chunks(32).enumerate()` issues one
write per 32-byte chunk (last chunk possibly shorter) at offset
`CONTENT_OFFSET + 32 * index`.  `chunks(32).enumerate()` visits the first
32 bytes with the current index, then the rest with the index bumped. -/
def contentWriteOps (index : Nat) (content : List Nat) : List Op :=
  match content with
  | [] => []
  | x :: xs =>
    Op.write (CONTENT_OFFSET + 32 * index) ((x :: xs).take 32)
      :: contentWriteOps (index + 1) ((x :: xs).drop 32)
termination_by content.length
decreasing_by simp [List.length_drop]; omega

/-- The metadata record the write path constructs: `unused` is
`Default::default()` (28 zero bytes), the checksum and length of the
source content. -/
def mdOf (content : List Nat) : Metadata :=
  ⟨List.replicate 28 0, crc16usb content, content.length⟩

/-- The `Sub::Write` arm of `main`: size-check the source bytes, build the
metadata record (zeroed `unused`, checksum and length of the content),
serialize it, re-check the serialized size, then write the metadata
buffer, then the content chunks.  Filesystem input and the settling
sleeps are outside the embedding; transport writes are assumed to
succeed (any failure aborts without further ops). -/
def writePath (content : List Nat) : WriteOutcome :=
  if content.length > MAX_CONTENT_SIZE then
    ⟨[], some "File is too large."⟩
  else
    let md := mdOf content
    let buffer := metadataBuffer md
    if buffer.length - 2 ≠ METADATA_SIZE then
      ⟨[], some "Internal error: unexpected metadata size."⟩
    else
      ⟨Op.write METADATA_OFFSET (encodeMetadata md) :: contentWriteOps 0 content,
       none⟩

/-- The `Sub::Read` arm of `main`: read `size_of::<Metadata>()` bytes at
`METADATA_OFFSET`, decode, validate size and emptiness, read
`content_size` bytes at `CONTENT_OFFSET`, then unless `--ignore-crc`
compare the checksum of the retrieved bytes against the stored one.
The device is the byte array the transport reads from; delivery to the
destination file is outside the embedding. -/
def readPath (ignoreCrc allowEmpty : Bool) (device : List Nat) : ReadOutcome :=
  let metaOp := Op.read METADATA_OFFSET METADATA_SIZE
  let metadataBuf := (device.drop METADATA_OFFSET).take METADATA_SIZE
  match decodeMetadata metadataBuf with
  | none => ⟨[metaOp], .error "Invalid file metadata in EEPROM."⟩
  | some md =>
    if md.content_size > MAX_CONTENT_SIZE then
      ⟨[metaOp], .error "Invalid file size in EEPROM: exceeds maximum possible."⟩
    else if !allowEmpty && md.content_size == 0 then
      ⟨[metaOp], .error "File in EEPROM is empty or does not exists."⟩
    else
      let contentOp := Op.read CONTENT_OFFSET md.content_size
      let contentBuf := (device.drop CONTENT_OFFSET).take md.content_size
      if !ignoreCrc && crc16usb contentBuf != md.content_crc then
        ⟨[metaOp, contentOp],
         .error "File does not exist or is corrupted: CRC of file content does not match CRC in its metadata."⟩
      else
        ⟨[metaOp, contentOp], .ok contentBuf⟩

/-- Apply one addressed write to the device byte array: bytes
`[addr, addr + payload.length)` are replaced by the payload. -/
def writeDevice (device : List Nat) (addr : Nat) (payload : List Nat) : List Nat :=
  device.take addr ++ payload ++ device.drop (addr + payload.length)

/-- Apply a transport operation to the device state; reads do not change it. -/
def applyOp (device : List Nat) : Op → List Nat
  | .write addr payload => writeDevice device addr payload
  | .read _ _ => device

/-- Apply a trace of transport operations in order. -/
def applyOps (device : List Nat) (ops : List Op) : List Nat :=
  ops.foldl applyOp device

/-- The address a transport operation targets. -/
def Op.addr : Op → Nat
  | .write a _ => a
  | .read a _ => a

/-- An operation is a metadata write: a bus write addressed at
`METADATA_OFFSET`. -/
def Op.isMetadataWrite : Op → Bool
  | .write a _ => a == METADATA_OFFSET
  | .read _ _ => false

/-- An operation is a content-region write: a bus write addressed at or
beyond `CONTENT_OFFSET`. -/
def Op.isContentWrite : Op → Bool
  | .write a _ => CONTENT_OFFSET ≤ a
  | .read _ _ => false

/-- Formalisation of the ordering property claimed of the write path:
in the given trace, every content-region write occurs strictly before
every metadata write. -/
@[reducible] def contentBeforeMetadataOrder (ops : List Op) : Prop :=
  ∀ i, (hi : i < ops.length) → ∀ j, (hj : j < ops.length) →
    (ops.get ⟨i, hi⟩).isContentWrite = true →
    (ops.get ⟨j, hj⟩).isMetadataWrite = true → i < j

/-! ### Arithmetic facts about the CRC and the 16-bit codec -/

lemma crcBit_lt {crc : Nat} (h : crc < 65536) : crcBit crc < 65536 := by
  unfold crcBit
  split
  · have h1 : crc / 2 < 2 ^ 16 := by omega
    have h2 : (0xA001 : Nat) < 2 ^ 16 := by norm_num
    simpa using Nat.xor_lt_two_pow h1 h2
  · omega

lemma crcBit_iter_lt (n : Nat) {crc : Nat} (h : crc < 65536) :
    crcBit^[n] crc < 65536 := by
  induction n generalizing crc with
  | zero => simpa using h
  | succ k ih => rw [Function.iterate_succ_apply]; exact ih (crcBit_lt h)

lemma crcByte_lt {crc b : Nat} (hc : crc < 65536) (hb : b < 256) :
    crcByte crc b < 65536 := by
  unfold crcByte
  have h1 : crc < 2 ^ 16 := by omega
  have h2 : b < 2 ^ 16 := by omega
  exact crcBit_iter_lt 8 (by simpa using Nat.xor_lt_two_pow h1 h2)

lemma crc_foldl_lt (data : List Nat) (hd : ∀ b ∈ data, b < 256) :
    ∀ crc : Nat, crc < 65536 → data.foldl crcByte crc < 65536 := by
  induction data with
  | nil => intro crc h; simpa using h
  | cons x xs ih =>
    intro crc h
    rw [List.foldl_cons]
    exact ih (fun b hb => hd b (List.mem_cons_of_mem _ hb))
      _ (crcByte_lt h (hd x (List.mem_cons_self _ _)))

/-- The checksum always fits in a `u16` (the bytes of a byte array are
below 256). -/
lemma crc16usb_lt {data : List Nat} (hd : ∀ b ∈ data, b < 256) :
    crc16usb data < 65536 := by
  unfold crc16usb
  have h1 : data.foldl crcByte 0xFFFF < 2 ^ 16 := by
    simpa using crc_foldl_lt data hd 0xFFFF (by norm_num)
  have h2 : (0xFFFF : Nat) < 2 ^ 16 := by norm_num
  simpa using Nat.xor_lt_two_pow h1 h2

lemma u16leValue_u16leBytes {v : Nat} (h : v < 65536) :
    u16leValue (u16leBytes v) = v := by
  simp only [u16leBytes, u16leValue]
  omega

/-! ### Metadata codec facts -/

lemma encodeMetadata_length {md : Metadata} (h : md.unused.length = 28) :
    (encodeMetadata md).length = 32 := by
  simp [encodeMetadata, u16leBytes, h]

/-- Decoding inverts encoding for records with well-formed fields. -/
lemma decodeMetadata_encodeMetadata {md : Metadata} (hu : md.unused.length = 28)
    (hcrc : md.content_crc < 65536) (hsz : md.content_size < 65536) :
    decodeMetadata (encodeMetadata md) = some md := by
  have hlen : (encodeMetadata md).length = 32 := encodeMetadata_length hu
  have htake : (encodeMetadata md).take 28 = md.unused := by
    rw [encodeMetadata, List.append_assoc, ← hu, List.take_left]
  have hdrop28 : (encodeMetadata md).drop 28 =
      u16leBytes md.content_crc ++ u16leBytes md.content_size := by
    rw [encodeMetadata, List.append_assoc, ← hu, List.drop_left]
  have hdrop30 : (encodeMetadata md).drop 30 = u16leBytes md.content_size := by
    rw [show (30 : Nat) = 28 + 2 from rfl, ← List.drop_drop, hdrop28]
    simp [u16leBytes]
  rw [decodeMetadata, if_neg (by simp [hlen, METADATA_SIZE])]
  rw [htake, hdrop28, hdrop30]
  have h1 : (u16leBytes md.content_crc ++ u16leBytes md.content_size).take 2 =
      u16leBytes md.content_crc := by simp [u16leBytes]
  have h2 : (u16leBytes md.content_size).take 2 = u16leBytes md.content_size := by
    simp [u16leBytes]
  rw [h1, h2, u16leValue_u16leBytes hcrc, u16leValue_u16leBytes hsz]

/-! ### Device-array write algebra -/

lemma writeDevice_length {device payload : List Nat} {addr : Nat}
    (h : addr + payload.length ≤ device.length) :
    (writeDevice device addr payload).length = device.length := by
  simp [writeDevice, List.length_take, List.length_drop]
  omega

lemma writeDevice_nil {device : List Nat} {addr : Nat} :
    writeDevice device addr [] = device := by
  simp [writeDevice, List.take_append_drop]

lemma writeDevice_writeDevice {device p1 p2 : List Nat} {addr : Nat}
    (h : addr + p1.length ≤ device.length) :
    writeDevice (writeDevice device addr p1) (addr + p1.length) p2 =
      writeDevice device addr (p1 ++ p2) := by
  have htl : (device.take addr).length = addr := by
    simp [List.length_take]; omega
  unfold writeDevice
  have hlen12 : (device.take addr ++ p1).length = addr + p1.length := by
    simp [htl]
  have htake : (device.take addr ++ p1 ++ device.drop (addr + p1.length)).take
      (addr + p1.length) = device.take addr ++ p1 := by
    rw [← hlen12, List.take_left]
  have hdrop : (device.take addr ++ p1 ++ device.drop (addr + p1.length)).drop
      (addr + p1.length + p2.length) = device.drop (addr + p1.length + p2.length) := by
    rw [show device.take addr ++ p1 ++ device.drop (addr + p1.length) =
        (device.take addr ++ p1) ++ device.drop (addr + p1.length) from rfl,
      List.drop_append_eq_append_drop, hlen12,
      List.drop_eq_nil_of_le (by omega), List.drop_drop]
    simp only [List.nil_append]
    congr 1
    omega
  rw [htake, hdrop]
  simp [List.append_assoc, List.length_append, Nat.add_assoc]

/-! ### Facts about the chunked content writes -/

/-- The chunk loop issues exactly `ceil(L / 32)` writes. -/
lemma contentWriteOps_length (content : List Nat) (index : Nat) :
    (contentWriteOps index content).length = (content.length + 31) / 32 := by
  suffices H : ∀ n (content : List Nat), content.length = n → ∀ index : Nat,
      (contentWriteOps index content).length = (content.length + 31) / 32 from
    H content.length content rfl index
  intro n
  induction n using Nat.strong_induction_on with
  | _ n ih =>
    intro content hn index
    cases content with
    | nil => rw [contentWriteOps]; simp
    | cons x xs =>
      rw [contentWriteOps, List.length_cons,
        ih ((x :: xs).drop 32).length (by simp only [List.length_drop, List.length_cons] at hn ⊢; omega) _ rfl
          (index + 1)]
      simp only [List.length_drop, List.length_cons]
      omega

/-- The `i`-th chunk write targets `CONTENT_OFFSET + 32 * i` (relative to
the starting index) and carries the corresponding 32-byte slice. -/
lemma contentWriteOps_get (content : List Nat) (index i : Nat)
    (h : i < (contentWriteOps index content).length) :
    (contentWriteOps index content).get ⟨i, h⟩ =
      Op.write (CONTENT_OFFSET + 32 * (index + i))
        ((content.drop (32 * i)).take 32) := by
  suffices H : ∀ n (content : List Nat), content.length = n → ∀ index i
      (h : i < (contentWriteOps index content).length),
      (contentWriteOps index content).get ⟨i, h⟩ =
        Op.write (CONTENT_OFFSET + 32 * (index + i))
          ((content.drop (32 * i)).take 32) from
    H content.length content rfl index i h
  intro n
  induction n using Nat.strong_induction_on with
  | _ n ih =>
    intro content hn index i h
    cases content with
    | nil => rw [contentWriteOps] at h; simp at h
    | cons x xs =>
      cases i with
      | zero =>
        have hops : contentWriteOps index (x :: xs) =
            Op.write (CONTENT_OFFSET + 32 * index) ((x :: xs).take 32)
              :: contentWriteOps (index + 1) ((x :: xs).drop 32) := by
          rw [contentWriteOps]
        simp [hops]
      | succ k =>
        have hops : contentWriteOps index (x :: xs) =
            Op.write (CONTENT_OFFSET + 32 * index) ((x :: xs).take 32)
              :: contentWriteOps (index + 1) ((x :: xs).drop 32) := by
          rw [contentWriteOps]
        have h' : k < (contentWriteOps (index + 1) ((x :: xs).drop 32)).length := by
          rw [hops] at h
          simpa using h
        have hrec := ih ((x :: xs).drop 32).length
          (by simp only [List.length_drop, List.length_cons] at hn ⊢; omega) _ rfl (index + 1) k h'
        have hcons : (contentWriteOps index (x :: xs)).get ⟨k + 1, h⟩ =
            (contentWriteOps (index + 1) ((x :: xs).drop 32)).get ⟨k, h'⟩ := by
          simp [hops]
        rw [hcons, hrec, List.drop_drop]
        congr 2
        · omega
        · congr 1
          omega

/-- Every operation issued by the chunk loop is a content-region write. -/
lemma contentWriteOps_isContentWrite (content : List Nat) (index : Nat) :
    ∀ op ∈ contentWriteOps index content, op.isContentWrite = true := by
  suffices H : ∀ n (content : List Nat), content.length = n → ∀ index : Nat,
      ∀ op ∈ contentWriteOps index content, op.isContentWrite = true from
    H content.length content rfl index
  intro n
  induction n using Nat.strong_induction_on with
  | _ n ih =>
    intro content hn index
    cases content with
    | nil => rw [contentWriteOps]; simp
    | cons x xs =>
      rw [contentWriteOps]
      intro op hop
      rcases List.mem_cons.1 hop with heq | hmem
      · subst heq; simp [Op.isContentWrite, CONTENT_OFFSET]
      · exact ih ((x :: xs).drop 32).length (by simp only [List.length_drop, List.length_cons] at hn ⊢; omega)
          _ rfl (index + 1) op hmem

/-- Running the chunk writes against the device overwrites exactly the
targeted content region with the source bytes. -/
lemma applyOps_contentWriteOps (content : List Nat) (index : Nat)
    (device : List Nat)
    (h : CONTENT_OFFSET + 32 * index + content.length ≤ device.length) :
    applyOps device (contentWriteOps index content) =
      writeDevice device (CONTENT_OFFSET + 32 * index) content := by
  suffices H : ∀ n (content : List Nat), content.length = n →
      ∀ (index : Nat) (device : List Nat),
      CONTENT_OFFSET + 32 * index + content.length ≤ device.length →
      applyOps device (contentWriteOps index content) =
        writeDevice device (CONTENT_OFFSET + 32 * index) content from
    H content.length content rfl index device h
  intro n
  induction n using Nat.strong_induction_on with
  | _ n ih =>
    intro content hn index device h
    cases content with
    | nil => rw [contentWriteOps]; simp [applyOps, writeDevice_nil]
    | cons x xs =>
      rw [contentWriteOps]
      simp only [applyOps, List.foldl_cons]
      have htake32 : ((x :: xs).take 32).length = min 32 (x :: xs).length := by
        rw [List.length_take]
      by_cases hle : (x :: xs).length ≤ 32
      · rw [List.drop_eq_nil_of_le hle, contentWriteOps]
        simp only [List.foldl_nil, applyOp]
        rw [List.take_of_length_le hle]
      · have hww := @writeDevice_writeDevice device ((x :: xs).take 32)
          ((x :: xs).drop 32) (CONTENT_OFFSET + 32 * index)
          (by rw [htake32]; simp only [CONTENT_OFFSET] at h ⊢; omega)
        have harith : CONTENT_OFFSET + 32 * index + ((x :: xs).take 32).length =
            CONTENT_OFFSET + 32 * (index + 1) := by
          rw [htake32]; omega
        have hdev1 : (writeDevice device (CONTENT_OFFSET + 32 * index)
            ((x :: xs).take 32)).length = device.length :=
          writeDevice_length (by rw [htake32]; omega)
        have hbound : CONTENT_OFFSET + 32 * (index + 1) +
            ((x :: xs).drop 32).length ≤
            (writeDevice device (CONTENT_OFFSET + 32 * index)
              ((x :: xs).take 32)).length := by
          rw [hdev1]
          have h' := h
          simp only [List.length_cons] at h'
          simp only [List.length_drop, List.length_cons]
          omega
        have hrec := ih ((x :: xs).drop 32).length
          (by simp only [List.length_drop, List.length_cons] at hn ⊢; omega)
          ((x :: xs).drop 32) rfl (index + 1)
          (writeDevice device (CONTENT_OFFSET + 32 * index) ((x :: xs).take 32))
          hbound
        show applyOps (applyOp device _) _ = _
        simp only [applyOp]
        rw [hrec, ← harith, hww, List.take_append_drop]

/-! ### The write path on valid input -/

/-- For content within the size bound, the write path passes both checks
and issues the metadata write followed by the content chunk writes. -/
lemma writePath_eq {content : List Nat} (h : content.length ≤ MAX_CONTENT_SIZE) :
    writePath content =
      ⟨Op.write METADATA_OFFSET (encodeMetadata (mdOf content))
        :: contentWriteOps 0 content, none⟩ := by
  have h1 : ¬ content.length > MAX_CONTENT_SIZE := by omega
  have h2 : (metadataBuffer (mdOf content)).length - 2 = METADATA_SIZE := by
    simp [metadataBuffer, u16beBytes, encodeMetadata, u16leBytes, METADATA_SIZE,
      mdOf]
  simp only [writePath, if_neg h1]
  rw [if_neg (by simp [h2])]

lemma mdOf_unused_length (content : List Nat) : (mdOf content).unused.length = 28 := by
  simp [mdOf]

lemma encodeMetadata_mdOf_length (content : List Nat) :
    (encodeMetadata (mdOf content)).length = 32 :=
  encodeMetadata_length (mdOf_unused_length content)

/-- Applying the write path's operations to the device leaves the encoded
metadata at offset 0, the content at offset 32, and the tail unchanged. -/
lemma applyOps_writePath (content device : List Nat)
    (hdev : device.length = EEPROM_SIZE) (hmax : content.length ≤ MAX_CONTENT_SIZE) :
    applyOps device (writePath content).ops =
      encodeMetadata (mdOf content) ++ content
        ++ device.drop (32 + content.length) := by
  have hmetalen := encodeMetadata_mdOf_length content
  have hle : 32 + content.length ≤ device.length := by
    simp only [MAX_CONTENT_SIZE, EEPROM_SIZE, CONTENT_OFFSET] at hmax
    rw [hdev]
    simp only [EEPROM_SIZE]
    omega
  have hwd : METADATA_OFFSET + (encodeMetadata (mdOf content)).length ≤
      device.length := by
    rw [hmetalen, METADATA_OFFSET]
    omega
  have hwdlen : (writeDevice device METADATA_OFFSET
      (encodeMetadata (mdOf content))).length = device.length :=
    writeDevice_length hwd
  have hchunkbound : CONTENT_OFFSET + 32 * 0 + content.length ≤
      (writeDevice device METADATA_OFFSET (encodeMetadata (mdOf content))).length := by
    rw [hwdlen]
    simp only [CONTENT_OFFSET]
    omega
  have hchunks := applyOps_contentWriteOps content 0
    (writeDevice device METADATA_OFFSET (encodeMetadata (mdOf content)))
    hchunkbound
  rw [writePath_eq hmax]
  show applyOps (applyOp device _) _ = _
  simp only [applyOp]
  rw [hchunks]
  have haddr : CONTENT_OFFSET + 32 * 0 =
      METADATA_OFFSET + (encodeMetadata (mdOf content)).length := by
    rw [hmetalen, CONTENT_OFFSET, METADATA_OFFSET]
  rw [haddr, writeDevice_writeDevice hwd]
  simp [writeDevice, METADATA_OFFSET, List.length_append, hmetalen,
    Nat.add_assoc]

/-- Round trip: reading (default flags) after writing returns exactly the
written bytes.  Shared workhorse behind the round-trip claims. -/
lemma writeRead_roundTrip (content device : List Nat)
    (hdev : device.length = EEPROM_SIZE)
    (hbytes : ∀ b ∈ content, b < 256)
    (h0 : 0 < content.length) (hmax : content.length ≤ MAX_CONTENT_SIZE) :
    (readPath false false (applyOps device (writePath content).ops)).result =
      .ok content := by
  have hmetalen := encodeMetadata_mdOf_length content
  rw [applyOps_writePath content device hdev hmax]
  have hbuf : (((encodeMetadata (mdOf content) ++ content
      ++ device.drop (32 + content.length)).drop METADATA_OFFSET).take
        METADATA_SIZE) = encodeMetadata (mdOf content) := by
    simp only [METADATA_OFFSET, List.drop_zero, METADATA_SIZE]
    rw [List.append_assoc, ← hmetalen, List.take_left]
  have hszlt : content.length < 65536 := by
    simp only [MAX_CONTENT_SIZE, EEPROM_SIZE, CONTENT_OFFSET] at hmax
    omega
  have hdecode : decodeMetadata (encodeMetadata (mdOf content)) =
      some (mdOf content) :=
    decodeMetadata_encodeMetadata (mdOf_unused_length content)
      (crc16usb_lt hbytes) (by simpa [mdOf] using hszlt)
  have hcontent : (((encodeMetadata (mdOf content) ++ content
      ++ device.drop (32 + content.length)).drop CONTENT_OFFSET).take
        (mdOf content).content_size) = content := by
    simp only [CONTENT_OFFSET]
    rw [List.append_assoc, ← hmetalen, List.drop_left]
    rw [show (mdOf content).content_size = content.length from rfl]
    rw [List.take_append_eq_append_take]
    simp
  have hsz : ¬ ((mdOf content).content_size > MAX_CONTENT_SIZE) := by
    rw [show (mdOf content).content_size = content.length from rfl]
    omega
  have hne : ((mdOf content).content_size == 0) = false := by
    rw [show (mdOf content).content_size = content.length from rfl]
    have hz : content.length ≠ 0 := by omega
    simpa using hz
  have hcrc : (crc16usb content != (mdOf content).content_crc) = false := by
    rw [show (mdOf content).content_crc = crc16usb content from rfl]
    simp
  simp only [readPath, hbuf, hdecode, hsz, hne, hcontent, hcrc]
  simp [hcontent, hcrc]

/-- Once the metadata decodes, the read path is the decoded record's
validation cascade. -/
lemma readPath_eq_of_decode (ic ae : Bool) (device : List Nat) (md : Metadata)
    (hdec : decodeMetadata ((device.drop METADATA_OFFSET).take METADATA_SIZE) =
      some md) :
    readPath ic ae device =
      if md.content_size > MAX_CONTENT_SIZE then
        ⟨[Op.read METADATA_OFFSET METADATA_SIZE],
         .error "Invalid file size in EEPROM: exceeds maximum possible."⟩
      else if !ae && md.content_size == 0 then
        ⟨[Op.read METADATA_OFFSET METADATA_SIZE],
         .error "File in EEPROM is empty or does not exists."⟩
      else if !ic && crc16usb ((device.drop CONTENT_OFFSET).take
          md.content_size) != md.content_crc then
        ⟨[Op.read METADATA_OFFSET METADATA_SIZE,
          Op.read CONTENT_OFFSET md.content_size],
         .error "File does not exist or is corrupted: CRC of file content does not match CRC in its metadata."⟩
      else
        ⟨[Op.read METADATA_OFFSET METADATA_SIZE,
          Op.read CONTENT_OFFSET md.content_size],
         .ok ((device.drop CONTENT_OFFSET).take md.content_size)⟩ := by
  simp only [readPath, hdec]

/-! ### The claims -/

/-- C1 (counterexample): for the one-byte content `[104]`, the write path's
trace is the metadata record write at position 0 followed by the single
content chunk write at position 1, refuting the claim that every content
chunk write is issued before the metadata record write. -/
theorem C1_counterexample :
    (writePath [104]).ops =
      [Op.write METADATA_OFFSET (encodeMetadata (mdOf [104])),
       Op.write (CONTENT_OFFSET + 32 * 0) [104]] ∧
    ¬ contentBeforeMetadataOrder (writePath [104]).ops := by
  have hops : (writePath [104]).ops =
      [Op.write METADATA_OFFSET (encodeMetadata (mdOf [104])),
       Op.write (CONTENT_OFFSET + 32 * 0) [104]] := by
    rw [writePath_eq (by decide)]
    simp [contentWriteOps]
  exact ⟨hops, by rw [hops]; decide⟩

/-- C1 (amended): in the write path the metadata record write is issued to
the bus transport first, before every content chunk write; the rest of
the trace consists solely of content-region writes.  Hence a transport
failure on the metadata write leaves the device untouched, while a
failure on a later content chunk write can leave the new metadata paired
with old or partial content. -/
theorem C1_metadata_write_first (content : List Nat)
    (hmax : content.length ≤ MAX_CONTENT_SIZE) :
    (writePath content).ops =
      Op.write METADATA_OFFSET (encodeMetadata (mdOf content))
        :: contentWriteOps 0 content ∧
    (Op.write METADATA_OFFSET (encodeMetadata (mdOf content))).isMetadataWrite
      = true ∧
    ∀ op ∈ contentWriteOps 0 content, op.isContentWrite = true :=
  ⟨by rw [writePath_eq hmax], rfl, contentWriteOps_isContentWrite content 0⟩

theorem C1_metadata_write_first_witness :
    (writePath [104]).ops =
      Op.write METADATA_OFFSET (encodeMetadata (mdOf [104]))
        :: contentWriteOps 0 [104] :=
  (C1_metadata_write_first [104] (by decide)).1

/-- C2: for every content byte sequence with `0 < L ≤ MAX_CONTENT_SIZE`,
writing and then reading with default flags against a device modeled as a
byte array returns exactly the original bytes. -/
theorem C2_write_read_roundtrip (content device : List Nat)
    (hdev : device.length = EEPROM_SIZE)
    (hbytes : ∀ b ∈ content, b < 256)
    (h0 : 0 < content.length)
    (hmax : content.length ≤ MAX_CONTENT_SIZE) :
    (readPath false false (applyOps device (writePath content).ops)).result =
      Except.ok content :=
  writeRead_roundTrip content device hdev hbytes h0 hmax

theorem C2_write_read_roundtrip_witness :
    (readPath false false (applyOps (List.replicate 8192 0)
      (writePath [1, 2, 3]).ops)).result = Except.ok [1, 2, 3] :=
  C2_write_read_roundtrip [1, 2, 3] (List.replicate 8192 0)
    (by rw [List.length_replicate]; rfl) (by decide) (by decide) (by decide)

/-- C3: for content of length `0 < L ≤ MAX_CONTENT_SIZE`, the write path
issues exactly `ceil(L / 32)` content chunk writes, the `i`-th addressed
at `CONTENT_OFFSET + 32 * i`, in strictly increasing offset order, with
payload equal to the slice `[32 * i, min (32 * (i + 1)) L)` of the
source bytes. -/
theorem C3_chunk_writes (content : List Nat) (h0 : 0 < content.length)
    (hmax : content.length ≤ MAX_CONTENT_SIZE) :
    (writePath content).ops =
      Op.write METADATA_OFFSET (encodeMetadata (mdOf content))
        :: contentWriteOps 0 content ∧
    (contentWriteOps 0 content).length = (content.length + 31) / 32 ∧
    (∀ i (hi : i < (contentWriteOps 0 content).length),
      (contentWriteOps 0 content).get ⟨i, hi⟩ =
        Op.write (CONTENT_OFFSET + 32 * i) ((content.drop (32 * i)).take 32)) ∧
    ∀ i j (hi : i < (contentWriteOps 0 content).length)
      (hj : j < (contentWriteOps 0 content).length), i < j →
      ((contentWriteOps 0 content).get ⟨i, hi⟩).addr <
        ((contentWriteOps 0 content).get ⟨j, hj⟩).addr := by
  refine ⟨by rw [writePath_eq hmax], contentWriteOps_length content 0, ?_, ?_⟩
  · intro i hi
    simpa using contentWriteOps_get content 0 i hi
  · intro i j hi hj hij
    rw [contentWriteOps_get content 0 i hi, contentWriteOps_get content 0 j hj]
    simp only [Op.addr]
    omega

theorem C3_chunk_writes_witness :
    (contentWriteOps 0 (List.replicate 33 7)).length = (33 + 31) / 32 := by
  have h := (C3_chunk_writes (List.replicate 33 7) (by decide) (by decide)).2.1
  rw [List.length_replicate] at h
  exact h

/-- C4: oversize content makes the write path abort before any transport
write: the trace is empty and the error is set. -/
theorem C4_oversize_aborts (content : List Nat)
    (h : content.length > MAX_CONTENT_SIZE) :
    (writePath content).ops = [] ∧ (writePath content).err.isSome = true := by
  have heq : writePath content = ⟨[], some "File is too large."⟩ := by
    simp only [writePath, if_pos h]
  rw [heq]
  exact ⟨rfl, rfl⟩

theorem C4_oversize_aborts_witness :
    (writePath (List.replicate 8161 0)).ops = [] :=
  (C4_oversize_aborts (List.replicate 8161 0)
    (by rw [List.length_replicate]; decide)).1

/-- C5: for every metadata record with the 28 reserved bytes, the encoding
is exactly `METADATA_SIZE` = 32 bytes = `CONTENT_OFFSET`, laid out as
`reserved(28) | checksum(2) | length(2)`, and the write path's defensive
re-check of the encoded size (`buffer.len() - 2 == size_of::<Metadata>()`)
passes. -/
theorem C5_metadata_encoding (md : Metadata) (hu : md.unused.length = 28) :
    (encodeMetadata md).length = METADATA_SIZE ∧
    METADATA_SIZE = CONTENT_OFFSET ∧
    encodeMetadata md =
      md.unused ++ u16leBytes md.content_crc ++ u16leBytes md.content_size ∧
    (metadataBuffer md).length - 2 = METADATA_SIZE := by
  refine ⟨?_, rfl, rfl, ?_⟩
  · rw [encodeMetadata_length hu]; rfl
  · simp [metadataBuffer, u16beBytes, encodeMetadata, u16leBytes,
      METADATA_SIZE, hu]

theorem C5_metadata_encoding_witness :
    (encodeMetadata ⟨List.replicate 28 0, 0, 0⟩).length = METADATA_SIZE ∧
    (encodeMetadata ⟨List.replicate 28 0, 0xFFFF, MAX_CONTENT_SIZE⟩).length =
      METADATA_SIZE :=
  ⟨(C5_metadata_encoding ⟨List.replicate 28 0, 0, 0⟩ (by decide)).1,
   (C5_metadata_encoding ⟨List.replicate 28 0, 0xFFFF, MAX_CONTENT_SIZE⟩
     (by decide)).1⟩

/-- C6: with `--ignore-crc` absent the read path succeeds exactly when the
CRC-16/USB checksum of the retrieved content equals the stored
`content_crc` (otherwise it aborts with the corruption message); with
`--ignore-crc` present no comparison happens and the retrieved bytes are
delivered unchanged. -/
theorem C6_crc_flag (allowEmpty : Bool) (device : List Nat) (md : Metadata)
    (hdec : decodeMetadata ((device.drop METADATA_OFFSET).take METADATA_SIZE) =
      some md)
    (hsz : md.content_size ≤ MAX_CONTENT_SIZE)
    (hemp : allowEmpty = true ∨ md.content_size ≠ 0) :
    ((readPath false allowEmpty device).result =
        Except.ok ((device.drop CONTENT_OFFSET).take md.content_size) ↔
      crc16usb ((device.drop CONTENT_OFFSET).take md.content_size) =
        md.content_crc) ∧
    (crc16usb ((device.drop CONTENT_OFFSET).take md.content_size) ≠
        md.content_crc →
      (readPath false allowEmpty device).result = Except.error
        "File does not exist or is corrupted: CRC of file content does not match CRC in its metadata.") ∧
    (readPath true allowEmpty device).result =
      Except.ok ((device.drop CONTENT_OFFSET).take md.content_size) := by
  have hnsz : ¬ (md.content_size > MAX_CONTENT_SIZE) := by omega
  have hguard : ¬ ((!allowEmpty && md.content_size == 0) = true) := by
    rcases hemp with h | h
    · rw [h]; simp
    · simp [h]
  refine ⟨?_, ?_, ?_⟩
  · rw [readPath_eq_of_decode false allowEmpty device md hdec, if_neg hnsz,
      if_neg hguard]
    by_cases hcrc : crc16usb ((device.drop CONTENT_OFFSET).take
        md.content_size) = md.content_crc
    · rw [if_neg (by simp [hcrc])]
      exact iff_of_true rfl hcrc
    · rw [if_pos (by simp [hcrc])]
      exact iff_of_false (fun h => Except.noConfusion h) hcrc
  · intro hne
    rw [readPath_eq_of_decode false allowEmpty device md hdec, if_neg hnsz,
      if_neg hguard, if_pos (by simp [hne])]
  · rw [readPath_eq_of_decode true allowEmpty device md hdec, if_neg hnsz,
      if_neg hguard, if_neg (by simp)]

theorem C6_crc_flag_witness :
    (readPath true false (List.replicate 28 0 ++ [0, 0, 1, 0, 104])).result =
      Except.ok (((List.replicate 28 0 ++ [0, 0, 1, 0, 104]).drop
        CONTENT_OFFSET).take (1 : Nat)) :=
  (C6_crc_flag false (List.replicate 28 0 ++ [0, 0, 1, 0, 104])
    ⟨List.replicate 28 0, 0, 1⟩ (by decide) (by decide)
    (Or.inr (by decide))).2.2

/-- C7: a decoded `content_size` beyond `MAX_CONTENT_SIZE` aborts the read
path with the size-violation message, and no content read is issued: the
trace stops at the single metadata read. -/
theorem C7_size_violation (ignoreCrc allowEmpty : Bool) (device : List Nat)
    (md : Metadata)
    (hdec : decodeMetadata ((device.drop METADATA_OFFSET).take METADATA_SIZE) =
      some md)
    (hsz : md.content_size > MAX_CONTENT_SIZE) :
    (readPath ignoreCrc allowEmpty device).result =
      Except.error "Invalid file size in EEPROM: exceeds maximum possible." ∧
    (readPath ignoreCrc allowEmpty device).ops =
      [Op.read METADATA_OFFSET METADATA_SIZE] := by
  rw [readPath_eq_of_decode ignoreCrc allowEmpty device md hdec, if_pos hsz]
  exact ⟨rfl, rfl⟩

theorem C7_size_violation_witness :
    (readPath false false (List.replicate 30 0 ++ [255, 255])).result =
      Except.error "Invalid file size in EEPROM: exceeds maximum possible." :=
  (C7_size_violation false false (List.replicate 30 0 ++ [255, 255])
    ⟨List.replicate 28 0, 0, 65535⟩ (by decide) (by decide)).1

/-- C8 (counterexample): a device whose metadata has `content_size = 0` but
`content_crc = 1`: a read with `--allow-empty` (and default CRC checking)
does not succeed — the checksum of the empty content is 0 ≠ 1, so the
read aborts at the checksum comparison instead of delivering `[]`. -/
theorem C8_counterexample :
    decodeMetadata (((List.replicate 28 0 ++ [1, 0, 0, 0] : List Nat)).drop
        METADATA_OFFSET |>.take METADATA_SIZE) =
      some ⟨List.replicate 28 0, 1, 0⟩ ∧
    (readPath false true (List.replicate 28 0 ++ [1, 0, 0, 0])).result ≠
      Except.ok [] ∧
    (readPath false true (List.replicate 28 0 ++ [1, 0, 0, 0])).result =
      Except.error "File does not exist or is corrupted: CRC of file content does not match CRC in its metadata." :=
  ⟨by decide, by decide, by decide⟩

/-- C8 (amended): when the decoded `content_size` is 0, the read aborts at
the emptiness check unless `--allow-empty` is given; with `--allow-empty`
it delivers the zero-length sequence provided the checksum validation
also passes — `--ignore-crc` given, or the stored checksum equal to 0 =
CRC-16/USB of the empty sequence — and otherwise aborts at the checksum
comparison. -/
theorem C8_empty_policy (ignoreCrc : Bool) (device : List Nat) (md : Metadata)
    (hdec : decodeMetadata ((device.drop METADATA_OFFSET).take METADATA_SIZE) =
      some md)
    (hz : md.content_size = 0) :
    (readPath ignoreCrc false device).result =
      Except.error "File in EEPROM is empty or does not exists." ∧
    (readPath true true device).result = Except.ok [] ∧
    (md.content_crc = 0 → (readPath false true device).result = Except.ok []) ∧
    (md.content_crc ≠ 0 → (readPath false true device).result = Except.error
      "File does not exist or is corrupted: CRC of file content does not match CRC in its metadata.") := by
  have hnsz : ¬ (md.content_size > MAX_CONTENT_SIZE) := by rw [hz]; decide
  have htake : (device.drop CONTENT_OFFSET).take md.content_size = [] := by
    rw [hz]; exact List.take_zero _
  have hcrcnil : crc16usb ((device.drop CONTENT_OFFSET).take md.content_size)
      = 0 := by rw [htake]; rfl
  refine ⟨?_, ?_, ?_, ?_⟩
  · rw [readPath_eq_of_decode ignoreCrc false device md hdec, if_neg hnsz,
      if_pos (by rw [hz]; rfl)]
  · rw [readPath_eq_of_decode true true device md hdec, if_neg hnsz,
      if_neg (by simp), if_neg (by simp)]
    rw [show (⟨[Op.read METADATA_OFFSET METADATA_SIZE,
      Op.read CONTENT_OFFSET md.content_size],
      Except.ok ((device.drop CONTENT_OFFSET).take md.content_size)⟩ :
        ReadOutcome).result =
      Except.ok ((device.drop CONTENT_OFFSET).take md.content_size) from rfl,
      htake]
  · intro h0
    rw [readPath_eq_of_decode false true device md hdec, if_neg hnsz,
      if_neg (by simp), if_neg (by simp [hcrcnil, h0])]
    rw [show (⟨[Op.read METADATA_OFFSET METADATA_SIZE,
      Op.read CONTENT_OFFSET md.content_size],
      Except.ok ((device.drop CONTENT_OFFSET).take md.content_size)⟩ :
        ReadOutcome).result =
      Except.ok ((device.drop CONTENT_OFFSET).take md.content_size) from rfl,
      htake]
  · intro h0
    rw [readPath_eq_of_decode false true device md hdec, if_neg hnsz,
      if_neg (by simp), if_pos (by simp [hcrcnil]; omega)]

theorem C8_empty_policy_witness :
    (readPath false true (List.replicate 32 0)).result = Except.ok [] :=
  (C8_empty_policy false (List.replicate 32 0) ⟨List.replicate 28 0, 0, 0⟩
    (by decide) rfl).2.2.1 rfl

/-- C9: with the code's geometry (`MAX_CONTENT_SIZE` = 8160), writing the
5-byte file "hello" stores a metadata record with `content_size` = 5 and
`content_crc` = CRC-16/USB("hello"), and a subsequent default-flag read
returns exactly "hello" (bytes 104, 101, 108, 108, 111). -/
theorem C9_hello_scenario :
    MAX_CONTENT_SIZE = 8160 ∧
    (writePath [104, 101, 108, 108, 111]).ops.head? =
      some (Op.write METADATA_OFFSET (encodeMetadata
        ⟨List.replicate 28 0, crc16usb [104, 101, 108, 108, 111], 5⟩)) ∧
    (readPath false false (applyOps (List.replicate 8192 0)
      (writePath [104, 101, 108, 108, 111]).ops)).result =
      Except.ok [104, 101, 108, 108, 111] := by
  refine ⟨rfl, ?_, writeRead_roundTrip _ _ (by rw [List.length_replicate]; rfl)
    (by decide) (by decide) (by decide)⟩
  rw [writePath_eq (by decide)]
  rfl

/-- C10: every 32-byte buffer bincode-decodes to a `Metadata` record, so
when the device has at least `METADATA_SIZE` bytes the read path's
"Invalid file metadata in EEPROM" abort branch is unreachable. -/
theorem C10_decode_total (ignoreCrc allowEmpty : Bool) (buf device : List Nat)
    (hbuf : buf.length = METADATA_SIZE) (hdev : METADATA_SIZE ≤ device.length) :
    (∃ md, decodeMetadata buf = some md) ∧
    (readPath ignoreCrc allowEmpty device).result ≠
      Except.error "Invalid file metadata in EEPROM." := by
  constructor
  · exact ⟨_, by simp only [decodeMetadata]; rw [if_neg (by omega)]⟩
  · have hlen : ¬ (((device.drop METADATA_OFFSET).take METADATA_SIZE).length <
        METADATA_SIZE) := by
      simp only [METADATA_OFFSET, List.drop_zero, List.length_take]
      omega
    obtain ⟨md, hmd⟩ : ∃ md, decodeMetadata
        ((device.drop METADATA_OFFSET).take METADATA_SIZE) = some md :=
      ⟨_, by simp only [decodeMetadata]; rw [if_neg hlen]⟩
    rw [readPath_eq_of_decode ignoreCrc allowEmpty device md hmd]
    split
    · intro h; injection h with h'; exact absurd h' (by decide)
    · split
      · intro h; injection h with h'; exact absurd h' (by decide)
      · split
        · intro h; injection h with h'; exact absurd h' (by decide)
        · intro h; exact Except.noConfusion h

theorem C10_decode_total_witness :
    (∃ md, decodeMetadata (List.replicate 32 5) = some md) ∧
    (readPath false false (List.replicate 40 0)).result ≠
      Except.error "Invalid file metadata in EEPROM." :=
  C10_decode_total false false (List.replicate 32 5) (List.replicate 40 0)
    (by decide) (by decide)

end VkI2c
